import Mathlib

/-!
Verification development for the polybot market-making bot.

The definitions below are a shallow embedding of the Python source:
prices are integers in ticks (`ℤ`), sizes and cost bases are exact
rationals (`ℚ`, standing in for Python floats), fallible lookups return
`Option`.  Each definition's doc comment names the source function it
embeds.
-/

namespace Polybot

/-! ### Configuration constants (src/config.py) -/

/-- `config.MAX_POSITION = 75` (shares). -/
def MAX_POSITION : ℚ := 75

/-- `config.BASE_SIZE = 10` (shares). -/
def BASE_SIZE : ℚ := 10

/-- `config.MIN_ORDER_SIZE = 5` (shares). -/
def MIN_ORDER_SIZE : ℚ := 5

/-- `config.BASE_MARGIN_TICKS = 15`. -/
def BASE_MARGIN_TICKS : ℚ := 15

/-- `config.GAMMA = 0.001`. -/
def GAMMA : ℚ := 1 / 1000

/-- `config.MAX_SKEW_TICKS = 100`. -/
def MAX_SKEW_TICKS : ℚ := 100

/-- `config.LADDER_DEPTH = 5`. -/
def LADDER_DEPTH : ℕ := 5

/-- `config.MIN_PRICE = 100` (ticks). -/
def MIN_PRICE : ℤ := 100

/-- `config.SLIPPAGE_TOL_TICKS = 20`. -/
def SLIPPAGE_TOL_TICKS : ℚ := 20

/-- `config.HYSTERESIS = 0.50`. -/
def HYSTERESIS : ℚ := 1 / 2

/-- `config.PROFIT_LOCK_MIN = 10.0` (dollars). -/
def PROFIT_LOCK_MIN : ℚ := 10

/-- `config.TICK_SIZE = 10` (ticks). -/
def TICK_SIZE : ℤ := 10

/-- `config.CIRCUIT_BREAKER_USD = 200.0` (dollars). -/
def CIRCUIT_BREAKER_USD : ℚ := 200

/-! ### Sides -/

/-- The two outcome tokens of a window. -/
inductive Side where
  | yes
  | no
deriving DecidableEq, Repr

/-! ### Position state (src/state/position_state.py) -/

/-- `PositionState`: owned YES/NO shares and their cost bases in ticks
(src/state/position_state.py, class `PositionState`). -/
structure PositionState where
  Qy : ℚ
  Qn : ℚ
  Cy : ℚ
  Cn : ℚ
deriving DecidableEq, Repr

/-- `PositionState.get_avg_y_ticks`: `None` when `Qy <= 0`, else `Cy / Qy`. -/
def PositionState.getAvgYTicks (p : PositionState) : Option ℚ :=
  if p.Qy ≤ 0 then none else some (p.Cy / p.Qy)

/-- `PositionState.get_avg_n_ticks`: `None` when `Qn <= 0`, else `Cn / Qn`. -/
def PositionState.getAvgNTicks (p : PositionState) : Option ℚ :=
  if p.Qn ≤ 0 then none else some (p.Cn / p.Qn)

/-! ### Market view (best bid/ask fields read by the order manager)

Modelled from the spec: the Market Book holds "four nullable integers
`best_bid_yes`, `best_ask_yes`, `best_bid_no`, `best_ask_no` in ticks"
together with two per-side `synced` booleans.  `OrderManager._calc_p_mkt`
and `_calc_cap_exec` (src/execution/order_manager.py lines 185-220) read
`market_state.best_ask_yes` / `market_state.best_ask_no` as plain
attributes; the `MarketState` class under src exposes the same values
through the book-derived getters `get_best_ask_yes` / `get_best_ask_no`
(src/state/market_state.py lines 61-89, `None` when the ask book is
empty).  We model the value itself as an optional rational. -/
structure MarketView where
  bestAskYes : Option ℚ
  bestAskNo : Option ℚ
  syncedYes : Bool
  syncedNo : Bool
deriving DecidableEq, Repr

/-- Python truthiness of `x or 1000` as used in
`OrderManager._calc_p_mkt` / `_calc_cap_exec`
(`market_state.best_ask_no or 1000`): `None` and `0` both yield `1000`. -/
def orElse1000 (x : Option ℚ) : ℚ :=
  match x with
  | none => 1000
  | some a => if a = 0 then 1000 else a

/-! ### Triple gate pricing (src/execution/order_manager.py) -/

/-- `OrderManager._get_net_position` (order_manager.py lines 140-148). -/
def netPosition (side : Side) (p : PositionState) : ℚ :=
  match side with
  | .yes => p.Qy - p.Qn
  | .no => p.Qn - p.Qy

/-- `OrderManager._calc_p_acct` (order_manager.py lines 150-183):
light side uses the break-even formula, heavy/neutral uses
`1000 - avg_opp - BASE_MARGIN_TICKS`; `get_avg_*_ticks() or 0` maps a
missing average to `0`. -/
def calcPAcct (side : Side) (p : PositionState) : ℚ :=
  let net := netPosition side p
  if net < 0 then
    let heavyQty := match side with | .yes => p.Qn | .no => p.Qy
    let heavyAvg :=
      (match side with | .yes => p.getAvgNTicks | .no => p.getAvgYTicks).getD 0
    let lightCost := match side with | .yes => p.Cy | .no => p.Cn
    let sharesNeeded := |net|
    if sharesNeeded = 0 ∨ heavyQty = 0 then 990
    else (heavyQty * (1000 - heavyAvg) - lightCost) / sharesNeeded
  else
    let avgOpp :=
      (match side with | .yes => p.getAvgNTicks | .no => p.getAvgYTicks).getD 0
    1000 - avgOpp - BASE_MARGIN_TICKS

/-- The other side's best ask as read by `_calc_p_mkt`
(`market_state.best_ask_no` for YES, `best_ask_yes` for NO). -/
def askOther (side : Side) (ms : MarketView) : Option ℚ :=
  match side with | .yes => ms.bestAskNo | .no => ms.bestAskYes

/-- This side's best ask as read by `_calc_cap_exec`. -/
def askThis (side : Side) (ms : MarketView) : Option ℚ :=
  match side with | .yes => ms.bestAskYes | .no => ms.bestAskNo

/-- `OrderManager._calc_p_mkt` (order_manager.py lines 185-203):
`anchor = 1000 - (best ask of the other side, or 1000) - BASE_MARGIN_TICKS`,
`skew = clamp(net * GAMMA * 1000, -MAX_SKEW_TICKS, MAX_SKEW_TICKS)`,
result `anchor - skew`. -/
def calcPMkt (side : Side) (ms : MarketView) (p : PositionState) : ℚ :=
  let askOpp := orElse1000 (askOther side ms)
  let anchor := 1000 - askOpp - BASE_MARGIN_TICKS
  let rawSkew := netPosition side p * GAMMA * 1000
  let skew := max (-MAX_SKEW_TICKS) (min MAX_SKEW_TICKS rawSkew)
  anchor - skew

/-- `OrderManager._calc_cap_exec` (order_manager.py lines 205-220). -/
def calcCapExec (side : Side) (ms : MarketView) (p : PositionState) : ℚ :=
  if netPosition side p < 0 then orElse1000 (askThis side ms) + SLIPPAGE_TOL_TICKS
  else orElse1000 (askThis side ms) - (TICK_SIZE : ℚ)

/-- `OrderManager._calc_final_price` (order_manager.py lines 222-233):
`int(max(MIN_PRICE, min(990, min(p_acct, p_mkt, cap_exec))))`; the clamped
value is ≥ 100 > 0, so Python `int` truncation is the floor. -/
def calcFinalPrice (side : Side) (ms : MarketView) (p : PositionState) : ℤ :=
  ⌊max (MIN_PRICE : ℚ) (min 990 (min (calcPAcct side p) (min (calcPMkt side ms p) (calcCapExec side ms p))))⌋

/-- `OrderManager._calc_target_size` (order_manager.py lines 239-255):
hard stop `0` at `net >= MAX_POSITION`, else
`floor(BASE_SIZE * clamp(1 - net / MAX_POSITION, 0, 2) * 100) / 100`. -/
def calcTargetSize (side : Side) (p : PositionState) : ℚ :=
  let net := netPosition side p
  if MAX_POSITION ≤ net then 0
  else
    let scalar := max 0 (min 2 (1 - net / MAX_POSITION))
    (⌊BASE_SIZE * scalar * 100⌋ : ℚ) / 100

/-- `OrderManager._build_ideal_ladder` (order_manager.py lines 261-274):
empty for `target_size <= 0`, otherwise one rung
`p_final - i * TICK_SIZE` for each `i < LADDER_DEPTH` with price
`>= MIN_PRICE` (insertion order of the Python dict). -/
def buildIdealLadder (pFinal : ℤ) (targetSize : ℚ) : List (ℤ × ℚ) :=
  if targetSize ≤ 0 then []
  else
    (List.range LADDER_DEPTH).filterMap fun i =>
      if MIN_PRICE ≤ pFinal - (i : ℤ) * TICK_SIZE then
        some (pFinal - (i : ℤ) * TICK_SIZE, targetSize)
      else none

/-- The ideal ladder computed at the top of
`OrderManager._reconcile_orders` (order_manager.py lines 291-294). -/
def idealLadderOf (side : Side) (ms : MarketView) (p : PositionState) : List (ℤ × ℚ) :=
  buildIdealLadder (calcFinalPrice side ms p) (calcTargetSize side p)

/-! ### Order tracker (src/execution/order_tracker.py) -/

/-- `StandingOrder` (order_tracker.py lines 16-22). -/
structure StandingOrder where
  orderId : String
  price : ℤ
  remaining : ℚ
  original : ℚ
deriving DecidableEq, Repr

/-- One side of the tracker: the Python dict
`{price_ticks: [StandingOrder, ...]}` as an insertion-ordered
association list with (invariantly) unique price keys. -/
abbrev Levels := List (ℤ × List StandingOrder)

/-- `OrderTracker` (order_tracker.py lines 25-36): one price-keyed dict
per side. -/
structure OrderTracker where
  yes : Levels
  no : Levels
deriving DecidableEq, Repr

/-- `OrderTracker._get_orders` (order_tracker.py lines 38-40). -/
def OrderTracker.levels (t : OrderTracker) (side : Side) : Levels :=
  match side with
  | .yes => t.yes
  | .no => t.no

/-- Replace one side of the tracker. -/
def OrderTracker.setLevels (t : OrderTracker) (side : Side) (ls : Levels) : OrderTracker :=
  match side with
  | .yes => { t with yes := ls }
  | .no => { t with no := ls }

/-- All order ids on one side, in iteration order. -/
def levelIds (ls : Levels) : List String :=
  ls.flatMap fun lv => lv.2.map (·.orderId)

/-- `OrderTracker.find_by_order_id` (order_tracker.py lines 81-88):
first price level whose list contains the id, else `None`. -/
def findPriceByOrderId (ls : Levels) (oid : String) : Option ℤ :=
  match ls with
  | [] => none
  | (p, l) :: rest =>
      if l.any (fun o => o.orderId == oid) then some p
      else findPriceByOrderId rest oid

/-- Price, remaining and original size of the (first) tracked order with
the given id, in iteration order. -/
def lookupOrd (ls : Levels) (oid : String) : Option (ℤ × ℚ × ℚ) :=
  match ls with
  | [] => none
  | (p, l) :: rest =>
      match l.find? (fun o => o.orderId == oid) with
      | some o => some (p, o.remaining, o.original)
      | none => lookupOrd rest oid

/-- Inner loop of `OrderTracker.remove_by_id` (order_tracker.py lines
67-79): remove the first order with the id from one list; `none` when
absent. -/
def removeOrderFromList (l : List StandingOrder) (oid : String) : Option (List StandingOrder) :=
  match l with
  | [] => none
  | o :: rest =>
      if o.orderId == oid then some rest
      else (removeOrderFromList rest oid).map (o :: ·)

/-- `OrderTracker.remove_by_id` (order_tracker.py lines 67-79): remove
the first tracked order with the id, deleting the price level when its
list becomes empty. -/
def removeById (ls : Levels) (oid : String) : Levels :=
  match ls with
  | [] => []
  | (p, l) :: rest =>
      match removeOrderFromList l oid with
      | some l2 => if l2 = [] then rest else (p, l2) :: rest
      | none => (p, l) :: removeById rest oid

/-- `OrderTracker.remove_by_ids` (order_tracker.py lines 218-225). -/
def removeByIds (ls : Levels) (ids : List String) : Levels :=
  ids.foldl removeById ls

/-- `OrderTracker.add` (order_tracker.py lines 46-57): append to the list
at the price, creating the level (at the end, dict insertion order) when
absent. -/
def addOrder (ls : Levels) (price : ℤ) (oid : String) (size : ℚ) : Levels :=
  match ls with
  | [] => [(price, [⟨oid, price, size, size⟩])]
  | (p, l) :: rest =>
      if p = price then (p, l ++ [⟨oid, price, size, size⟩]) :: rest
      else (p, l) :: addOrder rest price oid size

/-- `OrderTracker.get_orders_at_price` (order_tracker.py lines 143-145). -/
def ordersAtPrice (ls : Levels) (price : ℤ) : List StandingOrder :=
  match ls.find? (fun lv => lv.1 == price) with
  | some lv => lv.2
  | none => []

/-- `OrderTracker.get_total_size_at_price` (order_tracker.py lines
147-150). -/
def totalSizeAtPrice (ls : Levels) (price : ℤ) : ℚ :=
  ((ordersAtPrice ls price).map (·.remaining)).sum

/-- Inner loop of `OrderTracker.update_fill` (order_tracker.py lines
109-123): decrement the first order with the id; remove it when the
remaining size falls to `<= 0.001`; leave the list unchanged when the id
is absent (the logged warning branch). -/
def fillOrderList (l : List StandingOrder) (filled : ℚ) (oid : String) : List StandingOrder :=
  match l with
  | [] => []
  | o :: rest =>
      if o.orderId == oid then
        if o.remaining - filled ≤ 1 / 1000 then rest
        else { o with remaining := o.remaining - filled } :: rest
      else o :: fillOrderList rest filled oid

/-- Applies `fillOrderList` to the level with the given price key,
deleting the level when its list becomes empty (order_tracker.py lines
109-120). -/
def applyFillAt (ls : Levels) (price : ℤ) (filled : ℚ) (oid : String) : Levels :=
  match ls with
  | [] => []
  | (p, l) :: rest =>
      if p = price then
        if fillOrderList l filled oid = [] then rest
        else (p, fillOrderList l filled oid) :: rest
      else (p, l) :: applyFillAt rest price filled oid

/-- `OrderTracker.update_fill` (order_tracker.py lines 90-125): locate
the order by id (`find_by_order_id`); Python `if not actual_price`
treats both `None` and a price of `0` as "unknown order" and returns the
tracker unchanged; otherwise the identified order is decremented at its
resting price (the reported fill `price` argument is used only for
logging). -/
def updateFill (t : OrderTracker) (side : Side) (price : ℤ) (filled : ℚ) (oid : String) : OrderTracker :=
  let _ := price
  match findPriceByOrderId (t.levels side) oid with
  | none => t
  | some actualPrice =>
      if actualPrice = 0 then t
      else t.setLevels side (applyFillAt (t.levels side) actualPrice filled oid)

/-! ### Reconciliation (src/execution/order_manager.py lines 280-350) -/

/-- Phase-2 loop body of `OrderManager._reconcile_orders`
(order_manager.py lines 311-333) for one ideal rung `(price, target)`:
returns the ids queued for cancellation at this price and the optional
`(price, size)` order queued for placement. -/
def rungStep (ls : Levels) (price : ℤ) (target : ℚ) : List String × Option (ℤ × ℚ) :=
  if totalSizeAtPrice ls price = 0 then
    ([], if MIN_ORDER_SIZE ≤ target then some (price, target) else none)
  else if totalSizeAtPrice ls price < target then
    ([], if MIN_ORDER_SIZE ≤ target - totalSizeAtPrice ls price then
      some (price, target - totalSizeAtPrice ls price) else none)
  else if target * (1 + HYSTERESIS) < totalSizeAtPrice ls price then
    ((ordersAtPrice ls price).map (·.orderId),
      if MIN_ORDER_SIZE ≤ target then some (price, target) else none)
  else ([], none)

/-- Phase 1 of `OrderManager._reconcile_orders` (order_manager.py lines
304-309): ids of every order at a price that is not in the ideal
ladder. -/
def staleCancelIds (ls : Levels) (ladder : List (ℤ × ℚ)) : List String :=
  (ls.filter fun lv => ¬ ladder.any (fun r => r.1 == lv.1)).flatMap
    fun lv => lv.2.map (·.orderId)

/-- The pure core of `OrderManager._reconcile_orders` (order_manager.py
lines 280-333): the queued cancel ids and queued placements, before the
venue calls. -/
def reconcileCompute (side : Side) (t : OrderTracker) (ms : MarketView) (p : PositionState) :
    List String × List (ℤ × ℚ) :=
  let pFinal := calcFinalPrice side ms p
  let target := calcTargetSize side p
  let ladder := buildIdealLadder pFinal target
  let ls := t.levels side
  if ladder = [] ∧ ls = [] then ([], [])
  else
    let phase2 := ladder.foldl
      (fun acc r =>
        let s := rungStep ls r.1 r.2
        (acc.1 ++ s.1, acc.2 ++ s.2.toList))
      (staleCancelIds ls ladder, [])
    phase2

/-- The venue response of `RealExecutor.cancel_orders`
(src/execution/real_executor.py lines 146-176): the `canceled` id list
and the `not_canceled` id-to-reason map. -/
structure CancelResponse where
  canceled : List String
  notCanceled : List (String × String)
deriving DecidableEq, Repr

/-- Cancel flush of `OrderManager._reconcile_orders` (order_manager.py
lines 335-340): when the queue is non-empty, call
`executor.cancel_orders(to_cancel_ids)` (whose returned `canceled` list
is discarded by the caller) and then remove every queued id from the
tracker. -/
def flushCancels (t : OrderTracker) (side : Side) (ids : List String)
    (resp : CancelResponse) : OrderTracker :=
  let _ := resp.canceled
  if ids = [] then t
  else t.setLevels side (removeByIds (t.levels side) ids)

/-! ### Supervisor periodic check (src/live_trade.py lines 256-289) -/

/-- Which safety action `LiveTrader._periodic_check` takes. -/
inductive CheckAction where
  | circuitBreaker
  | profitLock
  | nothing
deriving DecidableEq, Repr

/-- `LiveTrader._periodic_check` (live_trade.py lines 256-289), safety
part: the circuit breaker fires first when
`(Cy + Cn) / 1000 >= CIRCUIT_BREAKER_USD` (and returns); otherwise, when
`min(Qy, Qn) > 0`, the profit lock fires when
`min(Qy, Qn) * (1000 - (Cy / Qy + Cn / Qn)) / 1000 >= PROFIT_LOCK_MIN`
(pair cost built from `get_avg_y_ticks` and `get_avg_n_ticks`, both
defined since `min(Qy, Qn) > 0`). -/
def periodicCheckAction (p : PositionState) : CheckAction :=
  if CIRCUIT_BREAKER_USD ≤ (p.Cy + p.Cn) / 1000 then .circuitBreaker
  else if 0 < min p.Qy p.Qn then
    if PROFIT_LOCK_MIN ≤ min p.Qy p.Qn * (1000 - (p.Cy / p.Qy + p.Cn / p.Qn)) / 1000 then
      .profitLock
    else .nothing
  else .nothing

/-- `RealExecutor.get_position_summary` (src/execution/real_executor.py
lines 218-240): `min_pnl = min(Qy, Qn) * 1000 - (Cy + Cn)` in ticks,
reported as `min_pnl_usd = min_pnl / 1000`. -/
def summaryMinPnlUsd (p : PositionState) : ℚ :=
  (min p.Qy p.Qn * 1000 - (p.Cy + p.Cn)) / 1000

/-! ### Market scheduler (src/ingestion/orchestrator.py lines 99-191) -/

/-- Wait computation of
`IngestionOrchestrator._switch_markets_periodically` (orchestrator.py
lines 108-121): `next_start = current_start + 900`; if `now >=
next_start` the switch happens immediately (wait 0), otherwise the task
sleeps `next_start - now` seconds. -/
def schedulerWait (currentStart now : ℤ) : ℤ :=
  if currentStart + 900 ≤ now then 0 else currentStart + 900 - now

/-- `floor_to_15min_epoch` (src/ingestion/gamma_api.py lines 22-24):
`ts - (ts % 900)`; the market discovered at a switch carries this window
start in its slug. -/
def floorTo15m (ts : ℤ) : ℤ :=
  ts - ts % 900

/-! ### Market-data WebSocket (src/ingestion/polymarket_ws.py) -/

/-- Frames sent on the market-data WebSocket during a subscription
switch. -/
inductive WsFrame where
  | unsubscribeIds (ids : List String)
  | subscribeIds (ids : List String)
deriving DecidableEq, Repr

/-- The subscription state of `PolymarketWebSocket`
(polymarket_ws.py lines 24-51): the token ids it is subscribed to. -/
structure WsClient where
  subscribed : List String
deriving DecidableEq, Repr

/-- Modelled from the spec: `PolymarketWebSocket.switch_markets` is
invoked by the orchestrator on every window roll (orchestrator.py line
177) but its definition is not present under src (the class in
polymarket_ws.py lines 24-91 declares no such method).  Per the spec,
the switch sends an unsubscribe frame for the old token ids and a
subscribe frame for the new ids, and resets `synced` for both sides. -/
def switchMarkets (ws : WsClient) (ms : MarketView) (newIds : List String) :
    WsClient × MarketView × List WsFrame :=
  (⟨newIds⟩,
   { ms with syncedYes := false, syncedNo := false },
   [.unsubscribeIds ws.subscribed, .subscribeIds newIds])

/-- Post-switch market-data events relevant to sync: a book snapshot for
one side, or a `price_change` delta. -/
inductive FeedEvent where
  | bookYes
  | bookNo
  | priceDelta
deriving DecidableEq, Repr

/-- Effect of one feed event on the sync flags:
`_handle_book_message` marks its side synced (polymarket_ws.py lines
224-236); `_handle_price_change_message` never changes them. -/
def stepSync (ms : MarketView) : FeedEvent → MarketView
  | .bookYes => { ms with syncedYes := true }
  | .bookNo => { ms with syncedNo := true }
  | .priceDelta => ms

/-- `MarketState.sync_status` (src/state/market_state.py lines 50-53):
conjunction of the per-side flags. -/
def syncStatus (ms : MarketView) : Bool :=
  ms.syncedYes && ms.syncedNo

/-- Whether processing one feed event reaches a reconciliation:
`_handle_price_change_message` returns before touching the book when
`sync_status` is false (polymarket_ws.py line 247), and for book
messages the notified `LiveTrader._on_market_update` returns unless the
(post-update) snapshot has `sync_status` true (live_trade.py line
212). -/
def reconTriggered (ms : MarketView) : FeedEvent → Bool
  | .priceDelta => syncStatus ms
  | .bookYes => syncStatus (stepSync ms .bookYes)
  | .bookNo => syncStatus (stepSync ms .bookNo)

/-! ### Price-change book deltas (polymarket_ws.py lines 242-317) -/

/-- One price level map of `MarketState` (a `SortedDict` keyed by tick
price), viewed extensionally as a partial map from price to size. -/
abbrev BookMap := ℚ → Option ℚ

/-- Set a level: `order_book[price] = size`. -/
def setLevel (b : BookMap) (price size : ℚ) : BookMap :=
  fun q => if q = price then some size else b q

/-- Delete a level: `order_book.pop(price, None)`. -/
def delLevel (b : BookMap) (price : ℚ) : BookMap :=
  fun q => if q = price then none else b q

/-- The four order books of `MarketState`
(src/state/market_state.py lines 29-32). -/
structure Books where
  yesBids : BookMap
  yesAsks : BookMap
  noBids : BookMap
  noAsks : BookMap

/-- One entry of a `price_change` message after JSON parsing
(polymarket_ws.py lines 259-268): the asset id, the price in ticks, the
new size, and whether `side == "BUY"`. -/
structure PriceChange where
  assetId : String
  price : ℚ
  size : ℚ
  buySide : Bool
deriving DecidableEq, Repr

/-- Per-change loop body of `_handle_price_change_message`
(polymarket_ws.py lines 259-308): match the asset against the two CLOB
token ids (first = YES, second = NO; unknown assets are skipped), pick
bids for `BUY` and asks otherwise, then set the level when `size > 0`
and delete it otherwise. -/
def applyChange (yId nId : String) (b : Books) (c : PriceChange) : Books :=
  if c.assetId = yId then
    if c.buySide then
      { b with yesBids := if 0 < c.size then setLevel b.yesBids c.price c.size else delLevel b.yesBids c.price }
    else
      { b with yesAsks := if 0 < c.size then setLevel b.yesAsks c.price c.size else delLevel b.yesAsks c.price }
  else if c.assetId = nId then
    if c.buySide then
      { b with noBids := if 0 < c.size then setLevel b.noBids c.price c.size else delLevel b.noBids c.price }
    else
      { b with noAsks := if 0 < c.size then setLevel b.noAsks c.price c.size else delLevel b.noAsks c.price }
  else b

/-- `_handle_price_change_message` (polymarket_ws.py lines 242-317):
returns unchanged with no notification when `sync_status` is false or
the `price_changes` list is empty; otherwise applies every change in
order and then unconditionally calls `on_state_update` — there is no
materiality check.  The returned Boolean is whether `on_state_update`
was called. -/
def handlePriceChangeMsg (yId nId : String) (sync : Bool) (b : Books)
    (changes : List PriceChange) : Books × Bool :=
  if sync = false then (b, false)
  else if changes = [] then (b, false)
  else (changes.foldl (applyChange yId nId) b, true)

/-- Gate of `LiveTrader._on_market_update` (live_trade.py lines 210-249):
each `on_state_update` callback schedules one
`order_manager.on_price_change` reconciliation task whenever the
snapshot is synced, trading is enabled and the trader is not stopping —
with no comparison against the previous state. -/
def marketUpdateSchedulesRecon (synced tradingEnabled shouldStop : Bool) : Bool :=
  synced && tradingEnabled && !shouldStop

/-! ## Claim-side comparison definitions -/

/-- The target size exactly as the claim words it (for comparison with
`calcTargetSize`): `floor(BASE_SIZE * clamp(1 - net / MAX_POSITION, 0, 2)
* 100) / 100` with no separate hard stop. -/
def claimTargetSize (side : Side) (p : PositionState) : ℚ :=
  (⌊BASE_SIZE * (max 0 (min 2 (1 - netPosition side p / MAX_POSITION))) * 100⌋ : ℚ) / 100

/-- The market gate exactly as the claim words it (for comparison with
`calcPMkt`): `best_ask_other` is replaced by 1000 exactly when it is
unknown, and `skew = clamp(net * GAMMA * 1000, -MAX_SKEW, MAX_SKEW)`. -/
def claimPMkt (side : Side) (ms : MarketView) (p : PositionState) : ℚ :=
  ((1000 : ℚ) - (askOther side ms).getD 1000 - BASE_MARGIN_TICKS) -
    max (-MAX_SKEW_TICKS) (min MAX_SKEW_TICKS (netPosition side p * GAMMA * 1000))

/-! ## Claim C7: target size -/

/-- Claim C7: for every position state the target order size of a side
equals `floor(BASE_SIZE * clamp(1 - net / MAX_POSITION, 0, 2) * 100) /
100`, and equals 0 whenever `net >= MAX_POSITION`; `net = -MAX_POSITION`
gives scalar 2 (size 20), `net = 0` gives scalar 1 (size 10), and
`net = +MAX_POSITION` gives scalar 0, size 0 and an empty ladder. -/
theorem target_size_spec (side : Side) (p : PositionState) :
    calcTargetSize side p = claimTargetSize side p ∧
    (MAX_POSITION ≤ netPosition side p → calcTargetSize side p = 0) ∧
    (netPosition side p = -MAX_POSITION →
      max 0 (min 2 (1 - netPosition side p / MAX_POSITION)) = 2 ∧ calcTargetSize side p = 20) ∧
    (netPosition side p = 0 →
      max 0 (min 2 (1 - netPosition side p / MAX_POSITION)) = 1 ∧ calcTargetSize side p = 10) ∧
    (netPosition side p = MAX_POSITION →
      max 0 (min 2 (1 - netPosition side p / MAX_POSITION)) = 0 ∧ calcTargetSize side p = 0 ∧
      ∀ pf : ℤ, buildIdealLadder pf (calcTargetSize side p) = []) := by
  refine ⟨?_, ?_, ?_, ?_, ?_⟩
  · by_cases h : MAX_POSITION ≤ netPosition side p
    · have h1 : (1 : ℚ) ≤ netPosition side p / MAX_POSITION := by
        rw [le_div_iff₀ (by norm_num [MAX_POSITION])]
        simpa [MAX_POSITION] using h
      have h2 : 1 - netPosition side p / MAX_POSITION ≤ 0 := by linarith
      have h3 : min 2 (1 - netPosition side p / MAX_POSITION) ≤ 0 :=
        le_trans (min_le_right _ _) h2
      simp only [calcTargetSize, claimTargetSize, if_pos h, max_eq_left h3]
      norm_num [BASE_SIZE]
    · simp only [calcTargetSize, claimTargetSize, if_neg h]
  · intro h
    simp only [calcTargetSize, if_pos h]
  · intro h
    have hs : max 0 (min 2 (1 - netPosition side p / MAX_POSITION)) = 2 := by
      rw [h]; norm_num [MAX_POSITION]
    refine ⟨hs, ?_⟩
    have hneg : ¬ MAX_POSITION ≤ netPosition side p := by
      rw [h]; norm_num [MAX_POSITION]
    simp only [calcTargetSize, if_neg hneg, hs]
    norm_num [BASE_SIZE]
  · intro h
    have hs : max 0 (min 2 (1 - netPosition side p / MAX_POSITION)) = 1 := by
      rw [h]; norm_num
    refine ⟨hs, ?_⟩
    have hneg : ¬ MAX_POSITION ≤ netPosition side p := by
      rw [h]; norm_num [MAX_POSITION]
    simp only [calcTargetSize, if_neg hneg, hs]
    norm_num [BASE_SIZE]
  · intro h
    have hs : max 0 (min 2 (1 - netPosition side p / MAX_POSITION)) = 0 := by
      rw [h]; norm_num [MAX_POSITION]
    have hz : calcTargetSize side p = 0 := by
      simp only [calcTargetSize, if_pos (le_of_eq h.symm)]
    exact ⟨hs, hz, fun pf => by simp [buildIdealLadder, hz]⟩

/-- Witness for C7: the boundary sizes at concrete positions. -/
theorem target_size_spec_witness :
    calcTargetSize Side.yes ⟨0, 75, 0, 0⟩ = 20 ∧
    calcTargetSize Side.yes ⟨0, 0, 0, 0⟩ = 10 ∧
    calcTargetSize Side.yes ⟨75, 0, 0, 0⟩ = 0 :=
  ⟨((target_size_spec Side.yes ⟨0, 75, 0, 0⟩).2.2.1
      (by norm_num [netPosition, MAX_POSITION])).2,
   ((target_size_spec Side.yes ⟨0, 0, 0, 0⟩).2.2.2.1
      (by norm_num [netPosition])).2,
   (((target_size_spec Side.yes ⟨75, 0, 0, 0⟩).2.2.2.2
      (by norm_num [netPosition, MAX_POSITION])).2).1⟩

/-! ## Claim C2: profit lock trigger -/

/-- Counterexample to C2: at `Qy = 40, Qn = 20, Cy = 8000, Cn = 4000`
the code triggers the profit lock (matched-pair pnl `20 * (1000 - 400) /
1000 = 12 >= 10`), but the claim quantity `min(Qy, Qn) * 1000 - (Cy +
Cn) = 8000` ticks is only 8 dollars, below `PROFIT_LOCK_MIN`. -/
theorem profit_lock_cex :
    periodicCheckAction ⟨40, 20, 8000, 4000⟩ = CheckAction.profitLock ∧
    summaryMinPnlUsd ⟨40, 20, 8000, 4000⟩ < PROFIT_LOCK_MIN := by
  constructor
  · simp only [periodicCheckAction, CIRCUIT_BREAKER_USD, PROFIT_LOCK_MIN, min_def]
    norm_num
  · simp only [summaryMinPnlUsd, PROFIT_LOCK_MIN, min_def]
    norm_num

/-- Claim C2 (amended): the profit lock triggers exactly when the
circuit breaker has not fired (`(Cy + Cn) / 1000 < CIRCUIT_BREAKER_USD`),
`min(Qy, Qn) > 0`, and the matched-pair profit
`min(Qy, Qn) * (1000 - (Cy / Qy + Cn / Qn)) / 1000` is at least
`PROFIT_LOCK_MIN`; the cost of the excess unmatched side is not
subtracted, so this is not `min(Qy, Qn) * 1000 - (Cy + Cn)`. -/
theorem profit_lock_trigger_iff (p : PositionState) :
    periodicCheckAction p = CheckAction.profitLock ↔
      ((p.Cy + p.Cn) / 1000 < CIRCUIT_BREAKER_USD ∧ 0 < min p.Qy p.Qn ∧
        PROFIT_LOCK_MIN ≤ min p.Qy p.Qn * (1000 - (p.Cy / p.Qy + p.Cn / p.Qn)) / 1000) := by
  unfold periodicCheckAction
  split_ifs with h1 h2 h3
  · exact iff_of_false (by simp) fun hc => absurd hc.1 (not_lt.mpr h1)
  · exact iff_of_true rfl ⟨lt_of_not_le h1, h2, h3⟩
  · exact iff_of_false (by simp) fun hc => h3 hc.2.2
  · exact iff_of_false (by simp) fun hc => h2 hc.2.1

/-- Witness for C2 (amended): the concrete trigger at a balanced
profitable position. -/
theorem profit_lock_trigger_witness :
    periodicCheckAction ⟨30, 30, 7000, 7000⟩ = CheckAction.profitLock :=
  (profit_lock_trigger_iff ⟨30, 30, 7000, 7000⟩).mpr
    (by refine ⟨?_, ?_, ?_⟩ <;> · simp only [CIRCUIT_BREAKER_USD, PROFIT_LOCK_MIN, min_def]; norm_num)

/-! ## Claim C9: scheduler timing -/

/-- Counterexample to C9: with window start 0 and `now = 100` the
scheduler sleeps 800 s and wakes exactly at `next_start = 900`, not at
`next_start - LEAD` for the claimed lead of about 5 s. -/
theorem scheduler_no_lead_cex :
    schedulerWait 0 100 = 800 ∧ (100 : ℤ) + schedulerWait 0 100 ≠ (0 + 900) - 5 := by
  decide

/-- Claim C9 (amended): the scheduler computes `next_start = start + 900`
and sleeps until `next_start` exactly (no lead); when it wakes at or
after `next_start` it switches immediately (zero wait); the market
discovered at the switch carries window start `floor(now / 900) * 900`,
so the following cycle realigns. -/
theorem scheduler_wait_spec (cs now : ℤ) :
    (now < cs + 900 → now + schedulerWait cs now = cs + 900) ∧
    (cs + 900 ≤ now → schedulerWait cs now = 0) ∧
    floorTo15m now ≤ now ∧ now < floorTo15m now + 900 := by
  unfold schedulerWait floorTo15m
  refine ⟨fun h => ?_, fun h => ?_, ?_, ?_⟩ <;> try split_ifs <;> omega
  all_goals omega

/-- Witness for C9: the scheduler started at window 0 at time 100 wakes
exactly at 900. -/
theorem scheduler_wait_witness : (100 : ℤ) + schedulerWait 0 100 = 0 + 900 :=
  (scheduler_wait_spec 0 100).1 (by decide)

/-! ## Claim C5: market gate -/

/-- Counterexample to C5: a known best ask of 0 ticks on the other side
is treated like an unknown one by the code (Python `or 1000`), so the
gate differs from the claim formula, which only substitutes 1000 when
the ask is unknown. -/
theorem p_mkt_cex :
    calcPMkt Side.yes ⟨none, some 0, true, true⟩ ⟨0, 0, 0, 0⟩ = -15 ∧
    claimPMkt Side.yes ⟨none, some 0, true, true⟩ ⟨0, 0, 0, 0⟩ = 985 ∧
    calcPMkt Side.yes ⟨none, some 0, true, true⟩ ⟨0, 0, 0, 0⟩ ≠
      claimPMkt Side.yes ⟨none, some 0, true, true⟩ ⟨0, 0, 0, 0⟩ := by
  refine ⟨?_, ?_, ?_⟩ <;>
    · simp only [calcPMkt, claimPMkt, orElse1000, askOther, netPosition, Option.getD,
        BASE_MARGIN_TICKS, MAX_SKEW_TICKS, GAMMA, min_def, max_def]
      norm_num

/-- Claim C5 (amended): the market gate equals `anchor - skew` with
`anchor = 1000 - best_ask_other - BASE_MARGIN` and
`skew = clamp(net * GAMMA * 1000, -MAX_SKEW, MAX_SKEW)` whenever the
other side's best ask is not zero (with 1000 substituted when it is
unknown); a best ask of exactly 0 is additionally treated as unknown. -/
theorem p_mkt_spec (side : Side) (ms : MarketView) (p : PositionState) :
    (askOther side ms ≠ some 0 → calcPMkt side ms p = claimPMkt side ms p) ∧
    (askOther side ms = some 0 →
      calcPMkt side ms p =
        ((1000 : ℚ) - 1000 - BASE_MARGIN_TICKS) -
          max (-MAX_SKEW_TICKS) (min MAX_SKEW_TICKS (netPosition side p * GAMMA * 1000))) := by
  unfold calcPMkt claimPMkt orElse1000
  constructor
  · intro h
    cases hA : askOther side ms with
    | none => simp [hA]
    | some a =>
        have ha : ¬ a = 0 := fun h0 => h (h0 ▸ hA)
        simp [hA, ha]
  · intro h
    simp [h]

/-- Witness for C5: at a market with known nonzero asks the gate equals
the claim formula. -/
theorem p_mkt_spec_witness :
    calcPMkt Side.yes ⟨some 520, some 490, true, true⟩ ⟨0, 0, 0, 0⟩ =
      claimPMkt Side.yes ⟨some 520, some 490, true, true⟩ ⟨0, 0, 0, 0⟩ :=
  (p_mkt_spec Side.yes ⟨some 520, some 490, true, true⟩ ⟨0, 0, 0, 0⟩).1
    (by norm_num [askOther])

/-! ## Claim C4: ladder shape -/

/-- A `filterMap` of an if-guarded function over `List.range n` with an
antitone guard keeps exactly a prefix of the indices. -/
theorem filterMap_range_antitone {α : Type} (n : ℕ) (g : ℕ → α) (cond : ℕ → Prop)
    [DecidablePred cond] (hmono : ∀ i j : ℕ, i ≤ j → cond j → cond i) :
    ∃ k, k ≤ n ∧ (∀ j, j < k → cond j) ∧ (∀ j, k ≤ j → j < n → ¬ cond j) ∧
      (List.range n).filterMap (fun i => if cond i then some (g i) else none) =
        (List.range k).map g := by
  induction n with
  | zero =>
      exact ⟨0, le_refl 0, fun j hj => absurd hj (by omega), fun j h1 h2 => absurd h2 (by omega),
        rfl⟩
  | succ n ih =>
      obtain ⟨k, hk, hall, hnone, heq⟩ := ih
      by_cases hc : cond n
      · have hkn : k = n := by
          by_contra hne
          have hkl : k < n := lt_of_le_of_ne hk hne
          exact hnone k (le_refl k) hkl (hmono k n (le_of_lt hkl) hc)
        refine ⟨n + 1, le_refl _, fun j hj => hmono j n (by omega) hc,
          fun j h1 h2 => absurd h1 (by omega), ?_⟩
        rw [List.range_succ, List.filterMap_append, heq, hkn]
        simp [List.filterMap_cons, hc, List.range_succ]
      · refine ⟨k, by omega, hall, ?_, ?_⟩
        · intro j h1 h2
          rcases lt_or_ge j n with h | h
          · exact hnone j h1 h
          · have hjn : j = n := by omega
            exact hjn ▸ hc
        · rw [List.range_succ, List.filterMap_append, heq]
          simp [List.filterMap_cons, hc]

/-- For a positive target size the ideal ladder is a prefix of the
descending arithmetic sequence from `p_final`, every kept rung clearing
`MIN_PRICE`. -/
theorem idealLadder_rep (pf : ℤ) (t : ℚ) (ht : 0 < t) :
    ∃ k, k ≤ LADDER_DEPTH ∧ (∀ j : ℕ, j < k → MIN_PRICE ≤ pf - (j : ℤ) * TICK_SIZE) ∧
      buildIdealLadder pf t =
        (List.range k).map (fun (i : ℕ) => (pf - (i : ℤ) * TICK_SIZE, t)) := by
  obtain ⟨k, hk, hall, _, heq⟩ :=
    filterMap_range_antitone LADDER_DEPTH (fun (i : ℕ) => (pf - (i : ℤ) * TICK_SIZE, t))
      (fun i => MIN_PRICE ≤ pf - (i : ℤ) * TICK_SIZE)
      (by
        intro i j hij hc
        simp only [MIN_PRICE, TICK_SIZE] at hc ⊢
        have hij2 : (i : ℤ) ≤ (j : ℤ) := by exact_mod_cast hij
        omega)
  refine ⟨k, hk, hall, ?_⟩
  unfold buildIdealLadder
  rw [if_neg (not_le.mpr ht)]
  exact heq

/-- The final price is clamped into `[MIN_PRICE, 990]`
(order_manager.py line 233). -/
theorem calcFinalPrice_bounds (side : Side) (ms : MarketView) (p : PositionState) :
    MIN_PRICE ≤ calcFinalPrice side ms p ∧ calcFinalPrice side ms p ≤ 990 := by
  unfold calcFinalPrice
  set x : ℚ := max ((MIN_PRICE : ℤ) : ℚ)
    (min 990 (min (calcPAcct side p) (min (calcPMkt side ms p) (calcCapExec side ms p)))) with hx
  constructor
  · refine Int.le_floor.mpr ?_
    rw [hx]
    exact le_max_left _ _
  · have h1 : x ≤ 990 := by
      rw [hx]
      exact max_le (by norm_num [MIN_PRICE]) (min_le_left _ _)
    have h2 : ⌊x⌋ ≤ ⌊(990 : ℚ)⌋ := Int.floor_le_floor h1
    simpa using h2

/-- Claim C4 (amended): every emitted rung has positive size and a price
in `[MIN_PRICE, 990]`, no two rungs share a price, and the `j`-th rung
sits exactly `j · TICK_SIZE` below `p_final` (so consecutive rungs
descend by exactly one TICK from `p_final`).  Rung prices are spaced by
TICK but are not in general multiples of TICK. -/
theorem ladder_shape (side : Side) (ms : MarketView) (p : PositionState) :
    (∀ j : ℕ, j < (idealLadderOf side ms p).length →
      (idealLadderOf side ms p).get? j =
        some (calcFinalPrice side ms p - (j : ℤ) * TICK_SIZE, calcTargetSize side p) ∧
      MIN_PRICE ≤ calcFinalPrice side ms p - (j : ℤ) * TICK_SIZE ∧
      calcFinalPrice side ms p - (j : ℤ) * TICK_SIZE ≤ 990 ∧
      0 < calcTargetSize side p) ∧
    ((idealLadderOf side ms p).map Prod.fst).Nodup := by
  by_cases ht : 0 < calcTargetSize side p
  · obtain ⟨k, hk, hall, heq⟩ := idealLadder_rep (calcFinalPrice side ms p) _ ht
    have hlen : (idealLadderOf side ms p).length = k := by
      unfold idealLadderOf
      rw [heq]
      simp
    constructor
    · intro j hj
      rw [hlen] at hj
      have hget : (idealLadderOf side ms p).get? j =
          some (calcFinalPrice side ms p - (j : ℤ) * TICK_SIZE, calcTargetSize side p) := by
        unfold idealLadderOf
        rw [heq, List.get?_map, List.get?_range hj]
        rfl
      have hub : calcFinalPrice side ms p - (j : ℤ) * TICK_SIZE ≤ 990 := by
        have h990 := (calcFinalPrice_bounds side ms p).2
        have hj0 : (0 : ℤ) ≤ (j : ℤ) := Int.ofNat_nonneg j
        simp only [TICK_SIZE]
        omega
      exact ⟨hget, hall j hj, hub, ht⟩
    · unfold idealLadderOf
      rw [heq, List.map_map]
      have : (Prod.fst ∘ fun (i : ℕ) => (calcFinalPrice side ms p - (i : ℤ) * TICK_SIZE,
          calcTargetSize side p)) = fun (i : ℕ) => calcFinalPrice side ms p - (i : ℤ) * TICK_SIZE :=
        rfl
      rw [this]
      refine List.Nodup.map ?_ (List.nodup_range k)
      intro a b hab
      simp only [TICK_SIZE] at hab
      omega
  · have hempty : idealLadderOf side ms p = [] := by
      unfold idealLadderOf buildIdealLadder
      rw [if_pos (not_lt.mp ht)]
    rw [hempty]
    exact ⟨fun j hj => absurd hj (by simp), List.nodup_nil⟩

/-- Counterexample to C4: with best asks YES 520 / NO 490 and an empty
position, `p_final = 495` and the ladder contains the rung price 495,
which is not a multiple of `TICK_SIZE = 10` (the spec's own scenario 1
ladder `495, 485, ...` has the same property). -/
theorem ladder_tick_cex :
    calcFinalPrice Side.yes ⟨some 520, some 490, true, true⟩ ⟨0, 0, 0, 0⟩ = 495 ∧
    (495, (10 : ℚ)) ∈ idealLadderOf Side.yes ⟨some 520, some 490, true, true⟩ ⟨0, 0, 0, 0⟩ ∧
    ¬ (TICK_SIZE ∣ (495 : ℤ)) := by
  have hpf : calcFinalPrice Side.yes ⟨some 520, some 490, true, true⟩ ⟨0, 0, 0, 0⟩ = 495 := by
    norm_num [calcFinalPrice, calcPAcct, calcPMkt, calcCapExec, orElse1000, askOther, askThis,
      netPosition, PositionState.getAvgYTicks, PositionState.getAvgNTicks, BASE_MARGIN_TICKS,
      MAX_SKEW_TICKS, GAMMA, SLIPPAGE_TOL_TICKS, TICK_SIZE, MIN_PRICE, min_def, max_def]
  have htg : calcTargetSize Side.yes ⟨0, 0, 0, 0⟩ = 10 := by
    norm_num [calcTargetSize, netPosition, MAX_POSITION, BASE_SIZE, min_def, max_def]
  refine ⟨hpf, ?_, by norm_num [TICK_SIZE]⟩
  unfold idealLadderOf
  rw [hpf, htg]
  norm_num [buildIdealLadder, LADDER_DEPTH, TICK_SIZE, MIN_PRICE, List.range_succ]

/-- Witness for C4 (amended): the second rung of the concrete ladder is
one tick below the first. -/
theorem ladder_shape_witness :
    (idealLadderOf Side.yes ⟨some 520, some 490, true, true⟩ ⟨0, 0, 0, 0⟩).get? 1 =
      some (calcFinalPrice Side.yes ⟨some 520, some 490, true, true⟩ ⟨0, 0, 0, 0⟩ -
        ((1 : ℕ) : ℤ) * TICK_SIZE, calcTargetSize Side.yes ⟨0, 0, 0, 0⟩) :=
  ((ladder_shape Side.yes ⟨some 520, some 490, true, true⟩ ⟨0, 0, 0, 0⟩).1 1
    (by
      norm_num [idealLadderOf, buildIdealLadder, LADDER_DEPTH, TICK_SIZE, MIN_PRICE,
        calcFinalPrice, calcPAcct, calcPMkt, calcCapExec, orElse1000, askOther, askThis,
        netPosition, PositionState.getAvgYTicks, PositionState.getAvgNTicks, BASE_MARGIN_TICKS,
        MAX_SKEW_TICKS, GAMMA, SLIPPAGE_TOL_TICKS, calcTargetSize, MAX_POSITION, BASE_SIZE,
        min_def, max_def, List.range_succ, List.filterMap_cons, List.filterMap_nil])).1

/-! ## Claim C6: per-rung reconciliation -/

/-- Claim C6: for every ideal-ladder rung `(price, target)` with
`current = tracker total size at that price`: `current = 0` places one
order of size `target` iff `target ≥ MIN_ORDER_SIZE`; `0 < current <
target` places a stacking order of `target − current` iff that
difference is `≥ MIN_ORDER_SIZE`; `current > target·(1 + HYSTERESIS)`
cancels all orders at the price and places one of size `target` iff
`target ≥ MIN_ORDER_SIZE`; otherwise nothing is placed or cancelled at
this price. -/
theorem rung_step_cases (ls : Levels) (price : ℤ) (target : ℚ) (htgt : 0 < target) :
    (totalSizeAtPrice ls price = 0 ∧ MIN_ORDER_SIZE ≤ target →
      rungStep ls price target = ([], some (price, target))) ∧
    (totalSizeAtPrice ls price = 0 ∧ target < MIN_ORDER_SIZE →
      rungStep ls price target = ([], none)) ∧
    (0 < totalSizeAtPrice ls price ∧ totalSizeAtPrice ls price < target ∧
        MIN_ORDER_SIZE ≤ target - totalSizeAtPrice ls price →
      rungStep ls price target = ([], some (price, target - totalSizeAtPrice ls price))) ∧
    (0 < totalSizeAtPrice ls price ∧ totalSizeAtPrice ls price < target ∧
        target - totalSizeAtPrice ls price < MIN_ORDER_SIZE →
      rungStep ls price target = ([], none)) ∧
    (target * (1 + HYSTERESIS) < totalSizeAtPrice ls price ∧ MIN_ORDER_SIZE ≤ target →
      rungStep ls price target = ((ordersAtPrice ls price).map (·.orderId), some (price, target))) ∧
    (target * (1 + HYSTERESIS) < totalSizeAtPrice ls price ∧ target < MIN_ORDER_SIZE →
      rungStep ls price target = ((ordersAtPrice ls price).map (·.orderId), none)) ∧
    (target ≤ totalSizeAtPrice ls price ∧
        totalSizeAtPrice ls price ≤ target * (1 + HYSTERESIS) →
      rungStep ls price target = ([], none)) := by
  have hhy : target < target * (1 + HYSTERESIS) := by
    unfold HYSTERESIS
    nlinarith
  refine ⟨?_, ?_, ?_, ?_, ?_, ?_, ?_⟩
  · rintro ⟨h1, h2⟩
    unfold rungStep
    rw [if_pos h1, if_pos h2]
  · rintro ⟨h1, h2⟩
    unfold rungStep
    rw [if_pos h1, if_neg (not_le.mpr h2)]
  · rintro ⟨h1, h2, h3⟩
    unfold rungStep
    rw [if_neg (ne_of_gt h1), if_pos h2, if_pos h3]
  · rintro ⟨h1, h2, h3⟩
    unfold rungStep
    rw [if_neg (ne_of_gt h1), if_pos h2, if_neg (not_le.mpr h3)]
  · rintro ⟨h1, h2⟩
    have hcur : target < totalSizeAtPrice ls price := lt_trans hhy h1
    unfold rungStep
    rw [if_neg (ne_of_gt (lt_trans htgt hcur)), if_neg (not_lt.mpr (le_of_lt hcur)),
      if_pos h1, if_pos h2]
  · rintro ⟨h1, h2⟩
    have hcur : target < totalSizeAtPrice ls price := lt_trans hhy h1
    unfold rungStep
    rw [if_neg (ne_of_gt (lt_trans htgt hcur)), if_neg (not_lt.mpr (le_of_lt hcur)),
      if_pos h1, if_neg (not_le.mpr h2)]
  · rintro ⟨h1, h2⟩
    unfold rungStep
    rw [if_neg (ne_of_gt (lt_of_lt_of_le htgt h1)), if_neg (not_lt.mpr h1),
      if_neg (not_lt.mpr h2)]

/-- Witness for C6: the hysteresis shrink at a concrete oversized
price level (16 standing vs target 10: cancel all, place 10). -/
theorem rung_step_cases_witness :
    rungStep [(495, [⟨"x", 495, 16, 16⟩])] 495 10 = (["x"], some (495, 10)) :=
  (rung_step_cases [(495, [⟨"x", 495, 16, 16⟩])] 495 10 (by norm_num)).2.2.2.2.1
    ⟨by norm_num [totalSizeAtPrice, ordersAtPrice, HYSTERESIS, List.find?],
     by norm_num [MIN_ORDER_SIZE]⟩

/-! ## Claim C1: cancel flush -/

/-- `setLevels` followed by `levels` on the same side gives back the
stored levels. -/
theorem levels_setLevels (t : OrderTracker) (side : Side) (ls : Levels) :
    ((t.setLevels side ls).levels side) = ls := by
  cases side <;> rfl

/-- `findPriceByOrderId` returns `none` exactly when no tracked order on
the side carries the id. -/
theorem findPriceByOrderId_eq_none_iff (ls : Levels) (oid : String) :
    findPriceByOrderId ls oid = none ↔ oid ∉ levelIds ls := by
  induction ls with
  | nil => simp [findPriceByOrderId, levelIds]
  | cons lv rest ih =>
      rcases lv with ⟨p, l⟩
      by_cases h : l.any (fun o => o.orderId == oid) = true
      · have hmem : oid ∈ levelIds ((p, l) :: rest) := by
          obtain ⟨o, ho, hid⟩ := List.any_eq_true.mp h
          simp only [levelIds, List.flatMap_cons, List.mem_append, List.mem_map]
          exact Or.inl ⟨o, ho, by simpa using hid⟩
        simp only [findPriceByOrderId, if_pos h]
        constructor
        · intro hc
          cases hc
        · intro hc
          exact absurd hmem hc
      · have hnot : oid ∉ l.map (·.orderId) := by
          intro hx
          rcases List.mem_map.mp hx with ⟨o, ho, hid⟩
          exact h (List.any_eq_true.mpr ⟨o, ho, by simp [hid]⟩)
        simp only [findPriceByOrderId, if_neg h]
        rw [ih]
        simp only [levelIds, List.flatMap_cons, List.mem_append]
        constructor
        · intro hr hc
          rcases hc with hc | hc
          · exact hnot hc
          · exact hr hc
        · intro hc hr
          exact hc (Or.inr hr)

/-- Removing one order by id keeps the remaining ids a sublist. -/
theorem removeOrderFromList_sublist (l : List StandingOrder) (oid : String)
    (l2 : List StandingOrder) (h : removeOrderFromList l oid = some l2) :
    (l2.map (·.orderId)).Sublist (l.map (·.orderId)) := by
  induction l generalizing l2 with
  | nil => cases h
  | cons o rest ih =>
      by_cases hid : o.orderId == oid
      · rw [removeOrderFromList, if_pos hid] at h
        cases h
        simp [List.sublist_cons_self]
      · rw [removeOrderFromList, if_neg hid] at h
        cases hrec : removeOrderFromList rest oid with
        | none => rw [hrec] at h; cases h
        | some l3 =>
            rw [hrec] at h
            cases h
            simpa using (ih l3 hrec).cons₂ o.orderId

/-- Removal found the id: it was present. -/
theorem removeOrderFromList_some_mem (l : List StandingOrder) (oid : String)
    (l2 : List StandingOrder) (h : removeOrderFromList l oid = some l2) :
    oid ∈ l.map (·.orderId) := by
  induction l generalizing l2 with
  | nil => cases h
  | cons o rest ih =>
      by_cases hid : o.orderId == oid
      · have hoid : o.orderId = oid := by simpa using hid
        simp [hoid]
      · rw [removeOrderFromList, if_neg hid] at h
        cases hrec : removeOrderFromList rest oid with
        | none => rw [hrec] at h; cases h
        | some l3 =>
            simp only [List.map_cons, List.mem_cons]
            exact Or.inr (ih l3 hrec)

/-- With unique ids, removal eliminates the id from the list. -/
theorem removeOrderFromList_not_mem (l : List StandingOrder) (oid : String)
    (l2 : List StandingOrder) (h : removeOrderFromList l oid = some l2)
    (hnd : (l.map (·.orderId)).Nodup) : oid ∉ l2.map (·.orderId) := by
  induction l generalizing l2 with
  | nil => cases h
  | cons o rest ih =>
      rw [List.map_cons, List.nodup_cons] at hnd
      by_cases hid : o.orderId == oid
      · rw [removeOrderFromList, if_pos hid] at h
        cases h
        have hoid : o.orderId = oid := by simpa using hid
        exact hoid ▸ hnd.1
      · rw [removeOrderFromList, if_neg hid] at h
        cases hrec : removeOrderFromList rest oid with
        | none => rw [hrec] at h; cases h
        | some l3 =>
            rw [hrec] at h
            cases h
            intro hc
            simp only [List.map_cons, List.mem_cons] at hc
            rcases hc with hc | hc
            · exact absurd hc.symm (by simpa using hid)
            · exact ih l3 hrec hnd.2 hc

/-- When the head level does not contain the id, removal recurses. -/
theorem removeById_cons_none {p : ℤ} {l : List StandingOrder} {rest : Levels} {oid : String}
    (h : removeOrderFromList l oid = none) :
    removeById ((p, l) :: rest) oid = (p, l) :: removeById rest oid := by
  rw [removeById, h]

/-- When the head level contains the id, removal rewrites that level. -/
theorem removeById_cons_some {p : ℤ} {l : List StandingOrder} {rest : Levels} {oid : String}
    {l2 : List StandingOrder} (h : removeOrderFromList l oid = some l2) :
    removeById ((p, l) :: rest) oid = if l2 = [] then rest else (p, l2) :: rest := by
  rw [removeById, h]

/-- When removal reports the id absent, it is absent. -/
theorem removeOrderFromList_none_not_mem (l : List StandingOrder) (oid : String)
    (h : removeOrderFromList l oid = none) : oid ∉ l.map (·.orderId) := by
  induction l with
  | nil => simp
  | cons o rest ih =>
      rw [removeOrderFromList] at h
      by_cases hid : o.orderId == oid
      · rw [if_pos hid] at h
        cases h
      · rw [if_neg hid] at h
        cases hrec : removeOrderFromList rest oid with
        | some l3 => rw [hrec] at h; cases h
        | none =>
            intro hc
            simp only [List.map_cons, List.mem_cons] at hc
            rcases hc with hc | hc
            · exact absurd hc.symm (by simpa using hid)
            · exact ih hrec hc

/-- Removing by id from the level map keeps the side's ids a sublist. -/
theorem removeById_sublist (ls : Levels) (oid : String) :
    (levelIds (removeById ls oid)).Sublist (levelIds ls) := by
  induction ls with
  | nil => exact List.Sublist.refl _
  | cons lv rest ih =>
      rcases lv with ⟨p, l⟩
      cases hrec : removeOrderFromList l oid with
      | some l2 =>
          rw [removeById_cons_some hrec]
          by_cases hl2 : l2 = []
          · rw [if_pos hl2]
            simp only [levelIds, List.flatMap_cons]
            exact List.sublist_append_right _ _
          · rw [if_neg hl2]
            simp only [levelIds, List.flatMap_cons]
            exact (removeOrderFromList_sublist l oid l2 hrec).append_right _
      | none =>
          rw [removeById_cons_none hrec]
          simp only [levelIds, List.flatMap_cons]
          exact ih.append_left _

/-- With unique ids on the side, `removeById` eliminates the id. -/
theorem removeById_not_mem (ls : Levels) (oid : String)
    (hnd : (levelIds ls).Nodup) : oid ∉ levelIds (removeById ls oid) := by
  induction ls with
  | nil => simp [removeById, levelIds]
  | cons lv rest ih =>
      rcases lv with ⟨p, l⟩
      have hnd2 := hnd
      simp only [levelIds, List.flatMap_cons] at hnd2
      have hndl : (l.map (·.orderId)).Nodup := hnd2.of_append_left
      have hndr : (levelIds rest).Nodup := hnd2.of_append_right
      have hdisj : ∀ a ∈ l.map (·.orderId), a ∉ levelIds rest :=
        fun a ha => (List.disjoint_of_nodup_append hnd2) ha
      cases hrec : removeOrderFromList l oid with
      | some l2 =>
          have hmem : oid ∈ l.map (·.orderId) := removeOrderFromList_some_mem l oid l2 hrec
          rw [removeById_cons_some hrec]
          by_cases hl2 : l2 = []
          · rw [if_pos hl2]
            exact hdisj oid hmem
          · rw [if_neg hl2]
            simp only [levelIds, List.flatMap_cons, List.mem_append]
            rintro (hc | hc)
            · exact removeOrderFromList_not_mem l oid l2 hrec hndl hc
            · exact hdisj oid hmem hc
      | none =>
          rw [removeById_cons_none hrec]
          simp only [levelIds, List.flatMap_cons, List.mem_append]
          rintro (hc | hc)
          · exact removeOrderFromList_none_not_mem l oid hrec hc
          · exact ih hndr hc

/-- Removing a batch of ids keeps the side's ids a sublist. -/
theorem removeByIds_sublist (ls : Levels) (ids : List String) :
    (levelIds (removeByIds ls ids)).Sublist (levelIds ls) := by
  induction ids generalizing ls with
  | nil => exact List.Sublist.refl _
  | cons i rest ih =>
      exact (ih (removeById ls i)).trans (removeById_sublist ls i)

/-- With unique ids, removing a batch eliminates every id in it. -/
theorem removeByIds_not_mem (ls : Levels) (ids : List String) (oid : String)
    (hnd : (levelIds ls).Nodup) (hmem : oid ∈ ids) :
    oid ∉ levelIds (removeByIds ls ids) := by
  induction ids generalizing ls with
  | nil => cases hmem
  | cons i rest ih =>
      rcases List.mem_cons.mp hmem with rfl | hmem2
      · intro hc
        exact removeById_not_mem ls oid hnd
          ((removeByIds_sublist (removeById ls oid) rest).subset hc)
      · exact ih (removeById ls i) ((removeById_sublist ls i).nodup hnd) hmem2

/-- Claim C1 (amended): in the reconciler's cancel flush every queued id
is removed from the tracker unconditionally after the venue call — the
`canceled` list returned by `executor.cancel_orders` is discarded, so an
id reported `not_canceled` for any reason (not only "order no longer
exists") is removed as well. -/
theorem cancel_flush_unconditional (t : OrderTracker) (side : Side) (ids : List String)
    (resp : CancelResponse) (oid : String) (hnd : (levelIds (t.levels side)).Nodup)
    (hmem : oid ∈ ids) :
    findPriceByOrderId ((flushCancels t side ids resp).levels side) oid = none := by
  have hne : ids ≠ [] := by
    rintro rfl
    cases hmem
  unfold flushCancels
  rw [if_neg hne, levels_setLevels, findPriceByOrderId_eq_none_iff]
  exact removeByIds_not_mem (t.levels side) ids oid hnd hmem

/-- Counterexample to C1: one tracked YES order `"a"` at 495 is queued
for cancellation; the venue reports it not canceled (`canceled = []`,
reason "order is live"), yet the flush removes it from the tracker. -/
theorem cancel_flush_cex :
    (flushCancels ⟨[(495, [⟨"a", 495, 10, 10⟩])], []⟩ Side.yes ["a"]
        ⟨[], [("a", "order is live")]⟩).yes = [] ∧
    (⟨[], [("a", "order is live")]⟩ : CancelResponse).canceled = [] ∧
    flushCancels ⟨[(495, [⟨"a", 495, 10, 10⟩])], []⟩ Side.yes ["a"]
        ⟨[], [("a", "order is live")]⟩ ≠ ⟨[(495, [⟨"a", 495, 10, 10⟩])], []⟩ := by
  refine ⟨by decide, rfl, by decide⟩

/-- Witness for C1 (amended): the concrete flush of the counterexample
tracker leaves no trace of id `"a"`. -/
theorem cancel_flush_witness :
    findPriceByOrderId ((flushCancels ⟨[(495, [⟨"a", 495, 10, 10⟩])], []⟩ Side.yes ["a"]
      ⟨[], [("a", "order is live")]⟩).levels Side.yes) "a" = none :=
  cancel_flush_unconditional ⟨[(495, [⟨"a", 495, 10, 10⟩])], []⟩ Side.yes ["a"]
    ⟨[], [("a", "order is live")]⟩ "a" (by decide) (by decide)

/-! ## Claim C8: fills are applied by order id -/

/-- Unknown id: `update_fill` leaves the tracker unchanged
(order_tracker.py lines 101-104). -/
theorem updateFill_none {t : OrderTracker} {side : Side} {price : ℤ} {filled : ℚ}
    {oid : String} (h : findPriceByOrderId (t.levels side) oid = none) :
    updateFill t side price filled oid = t := by
  unfold updateFill
  rw [h]

/-- Known id: `update_fill` rewrites the level at the identified resting
price, unless Python falsiness treats price 0 as unknown. -/
theorem updateFill_some {t : OrderTracker} {side : Side} {price : ℤ} {filled : ℚ}
    {oid : String} {ap : ℤ} (h : findPriceByOrderId (t.levels side) oid = some ap) :
    updateFill t side price filled oid =
      if ap = 0 then t
      else t.setLevels side (applyFillAt (t.levels side) ap filled oid) := by
  unfold updateFill
  rw [h]

/-- Decrementing one id does not disturb lookups of other ids in the
same price level. -/
theorem fill_find_other (l : List StandingOrder) (filled : ℚ) (oid oid2 : String)
    (hne : oid2 ≠ oid) :
    (fillOrderList l filled oid).find? (fun x => x.orderId == oid2) =
      l.find? (fun x => x.orderId == oid2) := by
  induction l with
  | nil => rfl
  | cons o rest ih =>
      by_cases hid : o.orderId == oid
      · have hoid : o.orderId = oid := by simpa using hid
        have hno2 : (o.orderId == oid2) = false := by
          rw [hoid]
          exact beq_eq_false_iff_ne.mpr fun h => hne h.symm
        rw [fillOrderList, if_pos hid]
        by_cases hrem : o.remaining - filled ≤ 1 / 1000
        · rw [if_pos hrem, List.find?_cons, hno2]
        · have hno2m : (({ o with remaining := o.remaining - filled } :
              StandingOrder).orderId == oid2) = false := hno2
          rw [if_neg hrem, List.find?_cons, List.find?_cons, hno2m]
      · rw [fillOrderList, if_neg hid, List.find?_cons, List.find?_cons]
        cases h2 : (o.orderId == oid2) with
        | true => rfl
        | false => exact ih

/-- With unique ids in the level, decrementing the identified order
either removes it (remaining `≤ 0.001`) or stores the reduced size. -/
theorem fill_find_self (l : List StandingOrder) (filled : ℚ) (oid : String)
    (o : StandingOrder) (hf : l.find? (fun x => x.orderId == oid) = some o)
    (hnd : (l.map (·.orderId)).Nodup) :
    (o.remaining - filled ≤ 1 / 1000 →
      (fillOrderList l filled oid).find? (fun x => x.orderId == oid) = none) ∧
    (1 / 1000 < o.remaining - filled →
      (fillOrderList l filled oid).find? (fun x => x.orderId == oid) =
        some { o with remaining := o.remaining - filled }) := by
  induction l with
  | nil => cases hf
  | cons o2 rest ih =>
      rw [List.map_cons, List.nodup_cons] at hnd
      rw [List.find?_cons] at hf
      by_cases hid : (o2.orderId == oid) = true
      · rw [hid] at hf
        have hf2 : some o2 = some o := hf
        cases hf2
        have hrest : rest.find? (fun x => x.orderId == oid) = none := by
          rw [List.find?_eq_none]
          intro x hx hpx
          exact hnd.1 (by
            have hxo : x.orderId = o.orderId := by
              have h1 : x.orderId = oid := by simpa using hpx
              have h2 : o.orderId = oid := by simpa using hid
              rw [h1, h2]
            exact hxo ▸ List.mem_map.mpr ⟨x, hx, rfl⟩)
        constructor
        · intro hrem
          rw [fillOrderList, if_pos hid, if_pos hrem]
          exact hrest
        · intro hrem
          rw [fillOrderList, if_pos hid, if_neg (not_le.mpr hrem), List.find?_cons]
          have hid2 : (({ o with remaining := o.remaining - filled } :
              StandingOrder).orderId == oid) = true := hid
          rw [hid2]
      · have hidf : (o2.orderId == oid) = false := by simpa using hid
        rw [hidf] at hf
        have hf2 : rest.find? (fun x => x.orderId == oid) = some o := hf
        have hrec := ih hf2 hnd.2
        constructor
        · intro hrem
          rw [fillOrderList, if_neg hid, List.find?_cons, hidf]
          exact hrec.1 hrem
        · intro hrem
          rw [fillOrderList, if_neg hid, List.find?_cons, hidf]
          exact hrec.2 hrem

/-- An id absent from a side has no lookup result. -/
theorem lookupOrd_eq_none_of_not_mem (ls : Levels) (oid : String)
    (h : oid ∉ levelIds ls) : lookupOrd ls oid = none := by
  induction ls with
  | nil => rfl
  | cons lv rest ih =>
      rcases lv with ⟨q, l⟩
      simp only [levelIds, List.flatMap_cons, List.mem_append] at h
      push_neg at h
      have hf : l.find? (fun x => x.orderId == oid) = none := by
        rw [List.find?_eq_none]
        intro x hx hpx
        exact h.1 (List.mem_map.mpr ⟨x, hx, by simpa using hpx⟩)
      rw [lookupOrd, hf]
      exact ih h.2

/-- A successful lookup names a price key of the side. -/
theorem lookupOrd_mem_keys (ls : Levels) (oid : String) (p : ℤ) (r g : ℚ)
    (h : lookupOrd ls oid = some (p, r, g)) : p ∈ ls.map Prod.fst := by
  induction ls with
  | nil => cases h
  | cons lv rest ih =>
      rcases lv with ⟨q, l⟩
      rw [lookupOrd] at h
      cases hf : l.find? (fun x => x.orderId == oid) with
      | some o =>
          rw [hf] at h
          injection h with h2
          simp only [List.map_cons, List.mem_cons]
          exact Or.inl (congrArg Prod.fst h2).symm
      | none =>
          rw [hf] at h
          simp only [List.map_cons, List.mem_cons]
          exact Or.inr (ih h)

/-- A successful lookup agrees with `find_by_order_id` on the price. -/
theorem findPrice_eq_of_lookup (ls : Levels) (oid : String) (p : ℤ) (r g : ℚ)
    (h : lookupOrd ls oid = some (p, r, g)) : findPriceByOrderId ls oid = some p := by
  induction ls with
  | nil => cases h
  | cons lv rest ih =>
      rcases lv with ⟨q, l⟩
      rw [lookupOrd] at h
      cases hf : l.find? (fun x => x.orderId == oid) with
      | some o =>
          rw [hf] at h
          injection h with h2
          have hpred := List.find?_some hf
          have hany : l.any (fun x => x.orderId == oid) = true :=
            List.any_eq_true.mpr ⟨o, List.mem_of_find?_eq_some hf, hpred⟩
          rw [findPriceByOrderId, if_pos hany]
          exact congrArg some (congrArg Prod.fst h2)
      | none =>
          rw [hf] at h
          have hany : ¬ l.any (fun x => x.orderId == oid) = true := by
            intro ha
            obtain ⟨x, hx, hpx⟩ := List.any_eq_true.mp ha
            exact absurd (List.find?_eq_none.mp hf x hx) (by simp [hpx])
          rw [findPriceByOrderId, if_neg hany]
          exact ih h

/-- Core of C8: applying the fill at the identified price decrements or
removes exactly the identified order and preserves every other id. -/
theorem applyFillAt_lookup (ls : Levels) (p : ℤ) (filled : ℚ) (oid : String)
    (hkeys : (ls.map Prod.fst).Nodup) (hnd : (levelIds ls).Nodup) (r g : ℚ)
    (h : lookupOrd ls oid = some (p, r, g)) :
    ((r - filled ≤ 1 / 1000 → lookupOrd (applyFillAt ls p filled oid) oid = none) ∧
     (1 / 1000 < r - filled →
        lookupOrd (applyFillAt ls p filled oid) oid = some (p, r - filled, g)) ∧
     (∀ oid2, oid2 ≠ oid →
        lookupOrd (applyFillAt ls p filled oid) oid2 = lookupOrd ls oid2)) := by
  induction ls with
  | nil => cases h
  | cons lv rest ih =>
      rcases lv with ⟨q, l⟩
      rw [List.map_cons, List.nodup_cons] at hkeys
      have hnd2 := hnd
      simp only [levelIds, List.flatMap_cons] at hnd2
      have hndl : (l.map (·.orderId)).Nodup := hnd2.of_append_left
      have hndr : (levelIds rest).Nodup := hnd2.of_append_right
      have hdisj : ∀ a ∈ l.map (·.orderId), a ∉ levelIds rest :=
        fun a ha => (List.disjoint_of_nodup_append hnd2) ha
      rw [lookupOrd] at h
      cases hf : l.find? (fun x => x.orderId == oid) with
      | some o =>
          rw [hf] at h
          injection h with h2
          have hq : q = p := congrArg Prod.fst h2
          have hrem : o.remaining = r := congrArg (fun x => x.2.1) h2
          have horig : o.original = g := congrArg (fun x => x.2.2) h2
          have hmem : oid ∈ l.map (·.orderId) :=
            List.mem_map.mpr ⟨o, List.mem_of_find?_eq_some hf, by
              simpa using List.find?_some hf⟩
          have hrestnone : lookupOrd rest oid = none :=
            lookupOrd_eq_none_of_not_mem rest oid (hdisj oid hmem)
          have hself := fill_find_self l filled oid o hf hndl
          rw [applyFillAt, if_pos hq]
          refine ⟨?_, ?_, ?_⟩
          · intro hle
            have hfind2 : (fillOrderList l filled oid).find? (fun x => x.orderId == oid)
                = none := hself.1 (by rw [hrem]; exact hle)
            by_cases hl2 : fillOrderList l filled oid = []
            · rw [if_pos hl2]
              exact hrestnone
            · rw [if_neg hl2, lookupOrd, hfind2]
              exact hrestnone
          · intro hlt
            have hfind2 : (fillOrderList l filled oid).find? (fun x => x.orderId == oid)
                = some { o with remaining := o.remaining - filled } :=
              hself.2 (by rw [hrem]; exact hlt)
            have hl2 : fillOrderList l filled oid ≠ [] := by
              intro hx
              rw [hx] at hfind2
              cases hfind2
            rw [if_neg hl2, lookupOrd, hfind2]
            simp [hq, hrem, horig]
          · intro oid2 hne2
            have hother := fill_find_other l filled oid oid2 hne2
            by_cases hl2 : fillOrderList l filled oid = []
            · rw [if_pos hl2]
              have hlnone : l.find? (fun x => x.orderId == oid2) = none := by
                rw [← hother, hl2]
                rfl
              rw [lookupOrd, hlnone]
            · rw [if_neg hl2, lookupOrd, hother, lookupOrd]
      | none =>
          rw [hf] at h
          have hq : q ≠ p := by
            intro hx
            exact hkeys.1 (hx ▸ lookupOrd_mem_keys rest oid p r g h)
          have hih := ih hkeys.2 hndr h
          rw [applyFillAt, if_neg hq]
          refine ⟨?_, ?_, ?_⟩
          · intro hle
            rw [lookupOrd, hf]
            exact hih.1 hle
          · intro hlt
            rw [lookupOrd, hf]
            exact hih.2.1 hlt
          · intro oid2 hne2
            rw [lookupOrd, lookupOrd]
            cases hf2 : l.find? (fun x => x.orderId == oid2) with
            | some o2 => rfl
            | none => exact hih.2.2 oid2 hne2

/-- Claim C8 (amended): `update_fill` leaves the tracker unchanged when
no tracked order has the id; it ignores the reported fill price
entirely, decrementing the order the id identifies at its resting
price; the order is removed when its remaining size falls to
approximately zero (`≤ 0.001`) and kept with the reduced size otherwise,
all other orders being untouched — provided the identified resting
price is nonzero, since Python `if not actual_price` also treats a
price of 0 as "unknown order". -/
theorem update_fill_spec (t : OrderTracker) (side : Side) (price : ℤ) (filled : ℚ)
    (oid : String) (hkeys : ((t.levels side).map Prod.fst).Nodup)
    (hnd : (levelIds (t.levels side)).Nodup) :
    (findPriceByOrderId (t.levels side) oid = none → updateFill t side price filled oid = t) ∧
    (updateFill t side price filled oid = updateFill t side 0 filled oid) ∧
    (∀ p r g, lookupOrd (t.levels side) oid = some (p, r, g) → p ≠ 0 →
      ((r - filled ≤ 1 / 1000 →
          lookupOrd ((updateFill t side price filled oid).levels side) oid = none) ∧
       (1 / 1000 < r - filled →
          lookupOrd ((updateFill t side price filled oid).levels side) oid =
            some (p, r - filled, g)) ∧
       (∀ oid2, oid2 ≠ oid →
          lookupOrd ((updateFill t side price filled oid).levels side) oid2 =
            lookupOrd (t.levels side) oid2))) ∧
    (∀ s2, s2 ≠ side → (updateFill t side price filled oid).levels s2 = t.levels s2) := by
  refine ⟨fun h => updateFill_none h, rfl, ?_, ?_⟩
  · intro p r g h hp
    have hfp : findPriceByOrderId (t.levels side) oid = some p :=
      findPrice_eq_of_lookup (t.levels side) oid p r g h
    have happ := applyFillAt_lookup (t.levels side) p filled oid hkeys hnd r g h
    rw [updateFill_some hfp, if_neg hp, levels_setLevels]
    exact happ
  · intro s2 hne
    cases hfp : findPriceByOrderId (t.levels side) oid with
    | none => rw [updateFill_none hfp]
    | some ap =>
        rw [updateFill_some hfp]
        by_cases hap : ap = 0
        · rw [if_pos hap]
        · rw [if_neg hap]
          cases side <;> cases s2 <;> first | exact absurd rfl hne | rfl

/-- Counterexample to C8: a tracked order with id `"b"` resting at price
0 is not decremented by a fill naming its id — Python `if not
actual_price` treats the found price 0 as an unknown order, so the
tracker is returned unchanged instead of reducing the remaining size
from 10 to 5. -/
theorem update_fill_cex :
    updateFill ⟨[(0, [⟨"b", 0, 10, 10⟩])], []⟩ Side.yes 0 5 "b" =
      (⟨[(0, [⟨"b", 0, 10, 10⟩])], []⟩ : OrderTracker) ∧
    lookupOrd ((⟨[(0, [⟨"b", 0, 10, 10⟩])], []⟩ : OrderTracker).levels Side.yes) "b" =
      some (0, 10, 10) := by
  exact ⟨rfl, rfl⟩

/-- Witness for C8 (amended): a taker-crossed fill reported at price 480
decrements the resting order at 495 identified by id `"c"`. -/
theorem update_fill_spec_witness :
    lookupOrd ((updateFill ⟨[(495, [⟨"c", 495, 10, 10⟩])], []⟩ Side.yes 480 4 "c").levels
      Side.yes) "c" = some (495, 6, 10) := by
  have h := (update_fill_spec ⟨[(495, [⟨"c", 495, 10, 10⟩])], []⟩ Side.yes 480 4 "c"
    (by decide) (by decide)).2.2.1 495 10 10 rfl (by decide)
  have h2 := h.2.1 (by norm_num)
  have h3 : (10 : ℚ) - 4 = 6 := by norm_num
  rw [h3] at h2
  exact h2

/-! ## Claim C10: repeated identical updates -/

/-- Selector for the four order books of `MarketState`. -/
inductive BookKey where
  | yb
  | ya
  | nb
  | na
deriving DecidableEq, Repr

/-- Read one of the four books. -/
def Books.getBk (b : Books) : BookKey → BookMap
  | .yb => b.yesBids
  | .ya => b.yesAsks
  | .nb => b.noBids
  | .na => b.noAsks

/-- The write a single `price_change` entry performs: which book, at
which price, and the new level content (`none` deletes the level). -/
def effect (yId nId : String) (c : PriceChange) : Option (BookKey × ℚ × Option ℚ) :=
  if c.assetId = yId then
    some ((if c.buySide then .yb else .ya), c.price,
      if 0 < c.size then some c.size else none)
  else if c.assetId = nId then
    some ((if c.buySide then .nb else .na), c.price,
      if 0 < c.size then some c.size else none)
  else none

/-- `applyChange` is exactly the write described by `effect`. -/
theorem applyChange_getBk (yId nId : String) (b : Books) (c : PriceChange)
    (k : BookKey) (q : ℚ) :
    (applyChange yId nId b c).getBk k q =
      match effect yId nId c with
      | some (k2, pr, v) => if k = k2 ∧ q = pr then v else b.getBk k q
      | none => b.getBk k q := by
  unfold applyChange effect
  by_cases h1 : c.assetId = yId
  · rw [if_pos h1, if_pos h1]
    cases hb : c.buySide <;> by_cases h3 : 0 < c.size <;> cases k <;>
      by_cases h4 : q = c.price <;>
        first
          | rfl
          | simp [Books.getBk, setLevel, delLevel, h3, h4]
  · rw [if_neg h1, if_neg h1]
    by_cases h2 : c.assetId = nId
    · rw [if_pos h2, if_pos h2]
      cases hb : c.buySide <;> by_cases h3 : 0 < c.size <;> cases k <;>
        by_cases h4 : q = c.price <;>
          first
            | rfl
            | simp [Books.getBk, setLevel, delLevel, h3, h4]
    · rw [if_neg h2, if_neg h2]

/-- The last write a change list performs on a given book cell, if any
(searching from the end of the list). -/
def lastWrite (yId nId : String) (k : BookKey) (q : ℚ) : List PriceChange → Option (Option ℚ)
  | [] => none
  | c :: rest =>
      match lastWrite yId nId k q rest with
      | some v => some v
      | none =>
          match effect yId nId c with
          | some (k2, pr, v) => if k = k2 ∧ q = pr then some v else none
          | none => none

/-- Last-write-wins: a cell of the folded book is the last write to it,
or the original cell when untouched. -/
theorem foldl_applyChange_getBk (yId nId : String) (cs : List PriceChange) (b : Books)
    (k : BookKey) (q : ℚ) :
    (cs.foldl (applyChange yId nId) b).getBk k q =
      match lastWrite yId nId k q cs with
      | some v => v
      | none => b.getBk k q := by
  induction cs generalizing b with
  | nil => rfl
  | cons c rest ih =>
      rw [List.foldl_cons, ih]
      cases hlw : lastWrite yId nId k q rest with
      | some v => simp only [lastWrite, hlw]
      | none =>
          simp only [lastWrite, hlw, applyChange_getBk]
          cases heff : effect yId nId c with
          | none => simp only [heff]
          | some kv =>
              rcases kv with ⟨k2, pr, v⟩
              simp only [heff]
              by_cases hc : k = k2 ∧ q = pr
              · simp only [if_pos hc]
              · simp only [if_neg hc]

/-- Books with the same cells are equal. -/
theorem books_ext (b1 b2 : Books) (h : ∀ k q, b1.getBk k q = b2.getBk k q) : b1 = b2 := by
  cases b1
  cases b2
  simp only [Books.mk.injEq]
  exact ⟨funext fun q => h .yb q, funext fun q => h .ya q,
    funext fun q => h .nb q, funext fun q => h .na q⟩

/-- Claim C10 (amended): applying the same `price_change` message twice
leaves the book state unchanged after the second application, but the
handler calls `on_state_update` on every non-empty update while synced —
there is no materiality check — and each notification schedules a
reconciliation while the supervisor gates are open.  Repeated identical
updates therefore do trigger downstream reconciliations (one per
arrival), though the reconciler issues no venue calls when nothing
changed. -/
theorem bbo_idempotent_but_renotifies (yId nId : String) (b : Books)
    (cs : List PriceChange) (h : cs ≠ []) :
    (handlePriceChangeMsg yId nId true (handlePriceChangeMsg yId nId true b cs).1 cs).1 =
      (handlePriceChangeMsg yId nId true b cs).1 ∧
    (handlePriceChangeMsg yId nId true b cs).2 = true ∧
    (handlePriceChangeMsg yId nId true (handlePriceChangeMsg yId nId true b cs).1 cs).2 = true ∧
    marketUpdateSchedulesRecon true true false = true := by
  have hmsg : ∀ b2 : Books, handlePriceChangeMsg yId nId true b2 cs =
      (cs.foldl (applyChange yId nId) b2, true) := by
    intro b2
    unfold handlePriceChangeMsg
    rw [if_neg (by simp), if_neg h]
  simp only [hmsg]
  refine ⟨books_ext _ _ fun k q => ?_, by trivial, by trivial, by trivial⟩
  cases hlw : lastWrite yId nId k q cs with
  | some v =>
      rw [foldl_applyChange_getBk, hlw, foldl_applyChange_getBk, hlw]
  | none =>
      rw [foldl_applyChange_getBk, hlw]

/-- A concrete book whose YES-bid level 500 already has size 10. -/
def dupBook0 : Books :=
  ⟨fun q => if q = 500 then some 10 else none, fun _ => none, fun _ => none, fun _ => none⟩

/-- A `price_change` message that sets YES-bid 500 to the size it
already has: no numeric value differs. -/
def dupMsg : List PriceChange :=
  [⟨"Y", 500, 10, true⟩]

/-- Counterexample to C10: an update in which no numeric value differs
(bid 500 ↦ 10, already the book content) fires `on_state_update`, and a
second identical application fires it again — two downstream
notifications, not at most one. -/
theorem bbo_dup_cex :
    (handlePriceChangeMsg "Y" "N" true dupBook0 dupMsg).2 = true ∧
    (handlePriceChangeMsg "Y" "N" true (handlePriceChangeMsg "Y" "N" true dupBook0 dupMsg).1
      dupMsg).2 = true ∧
    (handlePriceChangeMsg "Y" "N" true dupBook0 dupMsg).1.yesBids 500 =
      dupBook0.yesBids 500 := by
  refine ⟨rfl, rfl, ?_⟩
  simp [handlePriceChangeMsg, dupMsg, dupBook0, applyChange, setLevel]

/-- Witness for C10 (amended): the concrete duplicate message leaves the
book unchanged on its second application. -/
theorem bbo_idempotent_witness :
    (handlePriceChangeMsg "Y" "N" true (handlePriceChangeMsg "Y" "N" true dupBook0 dupMsg).1
        dupMsg).1 =
      (handlePriceChangeMsg "Y" "N" true dupBook0 dupMsg).1 :=
  (bbo_idempotent_but_renotifies "Y" "N" dupBook0 dupMsg (by simp [dupMsg])).1

/-! ## Claim C3: subscription switch resets sync -/

/-- The YES flag can only become true through a YES book snapshot. -/
theorem syncedYes_of_fold (evs : List FeedEvent) (ms : MarketView)
    (h0 : ms.syncedYes = false) (h1 : (evs.foldl stepSync ms).syncedYes = true) :
    FeedEvent.bookYes ∈ evs := by
  induction evs generalizing ms with
  | nil =>
      rw [List.foldl_nil] at h1
      rw [h0] at h1
      cases h1
  | cons e rest ih =>
      rw [List.foldl_cons] at h1
      cases e with
      | bookYes => exact List.mem_cons_self _ _
      | bookNo =>
          exact List.mem_cons_of_mem _ (ih (stepSync ms .bookNo) (by simpa [stepSync] using h0) h1)
      | priceDelta =>
          exact List.mem_cons_of_mem _ (ih (stepSync ms .priceDelta) (by simpa [stepSync] using h0) h1)

/-- The NO flag can only become true through a NO book snapshot. -/
theorem syncedNo_of_fold (evs : List FeedEvent) (ms : MarketView)
    (h0 : ms.syncedNo = false) (h1 : (evs.foldl stepSync ms).syncedNo = true) :
    FeedEvent.bookNo ∈ evs := by
  induction evs generalizing ms with
  | nil =>
      rw [List.foldl_nil] at h1
      rw [h0] at h1
      cases h1
  | cons e rest ih =>
      rw [List.foldl_cons] at h1
      cases e with
      | bookNo => exact List.mem_cons_self _ _
      | bookYes =>
          exact List.mem_cons_of_mem _ (ih (stepSync ms .bookYes) (by simpa [stepSync] using h0) h1)
      | priceDelta =>
          exact List.mem_cons_of_mem _ (ih (stepSync ms .priceDelta) (by simpa [stepSync] using h0) h1)

/-- Membership in a take extends to the next take. -/
theorem mem_take_succ_of_mem_take {α : Type} {a : α} {l : List α} {i : ℕ}
    (h : a ∈ l.take i) : a ∈ l.take (i + 1) := by
  rw [List.take_succ]
  exact List.mem_append_left _ h

/-- The element at index `i` is in `take (i + 1)`. -/
theorem get_mem_take_succ {α : Type} {l : List α} {i : ℕ} (h : i < l.length) :
    l.get ⟨i, h⟩ ∈ l.take (i + 1) := by
  rw [List.take_succ]
  refine List.mem_append_right _ ?_
  rw [List.getElem?_eq_getElem h]
  simp [List.get_eq_getElem]

/-- Claim C3: on every window roll, `switch_markets` sends an
unsubscribe frame for the old token ids and a subscribe frame for the
new ones and resets both per-side synced flags to false — and
afterwards no market-data event triggers a reconciliation until both
sides of the new window have received fresh book snapshots. -/
theorem switch_markets_spec (ws : WsClient) (ms : MarketView) (newIds : List String) :
    (switchMarkets ws ms newIds).2.2 =
      [WsFrame.unsubscribeIds ws.subscribed, WsFrame.subscribeIds newIds] ∧
    (switchMarkets ws ms newIds).1.subscribed = newIds ∧
    (switchMarkets ws ms newIds).2.1.syncedYes = false ∧
    (switchMarkets ws ms newIds).2.1.syncedNo = false ∧
    ∀ (evs : List FeedEvent) (i : ℕ) (h : i < evs.length),
      reconTriggered ((evs.take i).foldl stepSync (switchMarkets ws ms newIds).2.1)
          (evs.get ⟨i, h⟩) = true →
        FeedEvent.bookYes ∈ evs.take (i + 1) ∧ FeedEvent.bookNo ∈ evs.take (i + 1) := by
  refine ⟨rfl, rfl, rfl, rfl, ?_⟩
  intro evs i h htrig
  have h0y : (switchMarkets ws ms newIds).2.1.syncedYes = false := rfl
  have h0n : (switchMarkets ws ms newIds).2.1.syncedNo = false := rfl
  cases hev : evs.get ⟨i, h⟩ with
  | priceDelta =>
      rw [hev] at htrig
      simp only [reconTriggered, syncStatus, Bool.and_eq_true] at htrig
      exact ⟨mem_take_succ_of_mem_take (syncedYes_of_fold _ _ h0y htrig.1),
        mem_take_succ_of_mem_take (syncedNo_of_fold _ _ h0n htrig.2)⟩
  | bookYes =>
      rw [hev] at htrig
      simp only [reconTriggered, syncStatus, stepSync, Bool.true_and, Bool.and_eq_true] at htrig
      refine ⟨?_, mem_take_succ_of_mem_take (syncedNo_of_fold _ _ h0n htrig)⟩
      have := get_mem_take_succ h
      rw [hev] at this
      exact this
  | bookNo =>
      rw [hev] at htrig
      simp only [reconTriggered, syncStatus, stepSync, Bool.and_true, Bool.and_eq_true] at htrig
      refine ⟨mem_take_succ_of_mem_take (syncedYes_of_fold _ _ h0y htrig), ?_⟩
      have := get_mem_take_succ h
      rw [hev] at this
      exact this

/-- Witness for C3: after a concrete switch, the reconciliation
triggered by the third event implies both snapshots arrived among the
first three events. -/
theorem switch_markets_witness :
    FeedEvent.bookYes ∈ ([FeedEvent.bookYes, FeedEvent.bookNo, FeedEvent.priceDelta].take 3) ∧
    FeedEvent.bookNo ∈ ([FeedEvent.bookYes, FeedEvent.bookNo, FeedEvent.priceDelta].take 3) :=
  (switch_markets_spec ⟨["oldY", "oldN"]⟩ ⟨none, none, true, true⟩ ["newY", "newN"]).2.2.2.2
    [.bookYes, .bookNo, .priceDelta] 2 (by decide) (by decide)

end Polybot
